import Mathlib

/-
Verification of the filtering-and-aggregation engine of the plg-survey
analysis tool. The definitions below are a shallow embedding of the
current application object (the "Version 5.0 - Demographics Filtering
Enhancement" app in src/unnamed/part_004, lines 536-1857): the demographic
and ad-hoc filter pipeline (applyAllFilters, getActiveAdvancedFilters,
getCurrentData), the per-question-type aggregators (analyzeSingleChoice,
analyzeMultipleChoice, analyzeMatrix, analyzeOpenText, analyzeQuestion),
and the demographic option population (populateDemographicOptions).
JavaScript values are modelled explicitly: answer values are a tagged
union (absent / string / array of strings / object), JS truthiness is
spelled out, and JS objects (insertion-ordered string-keyed maps) are
association lists.
-/

namespace Survey

/-- An answer value as it appears in a loaded JSON response record:
absent (JS undefined or null), a string, an array of strings, or an
object mapping item names to scale labels (matrix answers). -/
inductive AnswerValue where
  | absent : AnswerValue
  | str : String → AnswerValue
  | arr : List String → AnswerValue
  | obj : List (String × String) → AnswerValue
deriving DecidableEq

/-- JS truthiness of an answer value: undefined/null and the empty string
are falsy; arrays and objects (even empty ones) are truthy. -/
def AnswerValue.truthy : AnswerValue → Bool
  | .absent => false
  | .str s => decide (s ≠ "")
  | .arr _ => true
  | .obj _ => true

/-- Key lookup in a JS-object-like association list of answer values;
a missing key reads as absent (response[key] === undefined). -/
def getField : List (String × AnswerValue) → String → AnswerValue
  | [], _ => .absent
  | (k', v) :: rest, k => if k' = k then v else getField rest k

/-- A survey response record: a flat JS object from question id to
answer value. -/
structure Response where
  fields : List (String × AnswerValue)
deriving DecidableEq

/-- Property access response[key] with undefined for missing keys. -/
def Response.get (r : Response) (k : String) : AnswerValue :=
  getField r.fields k

/-- A question of the schema document: display text, type tag, and the
type-specific vocabulary lists (empty when the JSON field is missing,
matching question.options || [] etc.). -/
structure Question where
  qtext : String
  qtype : String
  options : List String := []
  items : List String := []
  scale : List String := []
deriving DecidableEq

/-- The schema document: an insertion-ordered map from question id to
question, as a JS object. -/
structure Schema where
  questions : List (String × Question)
deriving DecidableEq

/-- Lookup schema.questions[key]. -/
def getQuestion : List (String × Question) → String → Option Question
  | [], _ => none
  | (k', q) :: rest, k => if k' = k then some q else getQuestion rest k

/-- Lookup of a question by id in a schema. -/
def Schema.getQ (s : Schema) (k : String) : Option Question :=
  getQuestion s.questions k

/-- Boolean list membership (JS Set.has / Array.includes over strings,
which compare with ===). -/
def memB (s : String) (l : List String) : Bool :=
  decide (s ∈ l)

/-- Whitespace as stripped by the JS String.prototype.trim calls in the
code (the survey data only ever contains these whitespace characters). -/
def isJsSpace (c : Char) : Bool :=
  c = ' ' || c = '\t' || c = '\n' || c = '\r'

/-- JS value.trim(): strip leading and trailing whitespace. -/
def jsTrim (s : String) : String :=
  ⟨((s.toList.dropWhile isJsSpace).reverse.dropWhile isJsSpace).reverse⟩

/-- The demographic stage of applyAllFilters (src/unnamed/part_004 lines
857-880).  professional_role: a truthy value that is one of the schema
options is tested against the role accepted set; a truthy value outside
the options is tested by asking whether the sentinel "Other" is in the
accepted set; a falsy value (absent or empty string) leaves roleMatch
false.  years_experience: the code runs
this.filters.demographics.years_experience.has(expValue) directly, i.e. a
literal membership test of the raw value in the accepted set (a JS Set of
strings can only contain string values, so non-string values never
match). -/
def demoPass (schema : Schema) (accRole accExp : List String) (r : Response) : Bool :=
  let roleValue := r.get "professional_role"
  let roleMatch : Bool :=
    match schema.getQ "professional_role" with
    | none => false
    | some q =>
      roleValue.truthy &&
        (match roleValue with
         | .str s => if memB s q.options then memB s accRole else memB "Other" accRole
         | _ => memB "Other" accRole)
  let expMatch : Bool :=
    match r.get "years_experience" with
    | .str s => memB s accExp
    | _ => false
  roleMatch && expMatch

/-- One row of the advanced-filter UI: selected question id, selected
target value, and the negate checkbox. -/
structure FilterRow where
  question : String
  value : String
  negate : Bool
deriving DecidableEq

/-- getActiveAdvancedFilters (src/unnamed/part_004 lines 926-945): a row
is active when both its question and its value dropdowns hold a
non-empty (truthy) string. -/
def getActiveAdvancedFilters (rows : List FilterRow) : List FilterRow :=
  rows.filter (fun f => decide (f.question ≠ "") && decide (f.value ≠ ""))

/-- The per-filter base test of applyAllFilters (lines 891-897): for an
array-valued answer, membership of the target value; otherwise strict
equality (===) of the answer with the target string, which is false for
absent and object answers. -/
def advBase (r : Response) (qid v : String) : Bool :=
  match r.get qid with
  | .arr l => memB v l
  | .str s => decide (s = v)
  | _ => false

/-- The per-filter test with negation applied (line 898:
filter.negate ? !match : match). -/
def advMatch (r : Response) (f : FilterRow) : Bool :=
  if f.negate then !(advBase r f.question f.value) else advBase r f.question f.value

/-- The AND/OR combine mode across the active advanced filters. -/
inductive CombineMode where
  | AND : CombineMode
  | OR : CombineMode
deriving DecidableEq

/-- The stage-2 predicate of applyAllFilters: OR uses Array.some over the
active filters, AND uses Array.every. -/
def advCombine (active : List FilterRow) (mode : CombineMode) (r : Response) : Bool :=
  match mode with
  | .OR => active.any (fun f => advMatch r f)
  | .AND => active.all (fun f => advMatch r f)

/-- applyAllFilters (src/unnamed/part_004 lines 852-915), as the pure
function from response store and filter state to the filtered subset:
first the demographic stage, then, only when at least one advanced
filter is active, the AND/OR stage. -/
def applyAllFilters (schema : Schema) (responses : List Response)
    (accRole accExp : List String) (rows : List FilterRow) (mode : CombineMode) :
    List Response :=
  let stage1 := responses.filter (fun r => demoPass schema accRole accExp r)
  let active := getActiveAdvancedFilters rows
  if active.length > 0 then stage1.filter (fun r => advCombine active mode r)
  else stage1

/-- Toggling the negate checkbox of the advanced filter at a given list
position (all other state untouched). -/
def toggleNegate : List FilterRow → Nat → List FilterRow
  | [], _ => []
  | f :: rest, 0 => ⟨f.question, f.value, !f.negate⟩ :: rest
  | f :: rest, Nat.succ n => f :: toggleNegate rest n

/-- A JS object used as a counter: an insertion-ordered association list
from label to count. -/
abbrev CountMap := List (String × Nat)

/-- Reading counts[k], with 0 for a missing key (the aggregators only
read keys they created). -/
def lookupCount : CountMap → String → Nat
  | [], _ => 0
  | (k', n) :: rest, k => if k' = k then n else lookupCount rest k

/-- Whether the object has the key (key presence as produced by JS
assignment). -/
def hasKey : CountMap → String → Bool
  | [], _ => false
  | (a, _) :: rest, k => decide (a = k) || hasKey rest k

/-- counts[k] += 1 for a key that is already present: the entry with that
key is incremented in place, every other entry is untouched. -/
def mapBump : CountMap → String → CountMap
  | [], _ => []
  | (a, n) :: rest, k => (if a = k then (a, n + 1) else (a, n)) :: mapBump rest k

/-- counts[k] = (counts[k] || 0) + 1: increment in place when the key is
present, otherwise append a fresh entry (JS assignment appends new keys
in insertion order). -/
def bumpOrInsert (m : CountMap) (k : String) : CountMap :=
  if hasKey m k then mapBump m k else m ++ [(k, 1)]

/-- In-place overwrite of an existing key's value. -/
def overwriteKey : CountMap → String → Nat → CountMap
  | [], _, _ => []
  | (a, m) :: rest, k, n => (if a = k then (a, n) else (a, m)) :: overwriteKey rest k n

/-- counts[k] = n: overwrite in place when present, append otherwise. -/
def setKey (m : CountMap) (k : String) (n : Nat) : CountMap :=
  if hasKey m k then overwriteKey m k n else m ++ [(k, n)]

/-- The zero-initialized counter over an option list (for (const option
of question.options) counts[option] = 0). -/
def zeroCounts : List String → CountMap
  | [] => []
  | o :: rest => (o, 0) :: zeroCounts rest

/-- One counting step of analyzeSingleChoice (lines 1258-1267): a string
value inside the schema options increments its bucket; every other value
is pushed onto otherAnswers (Array.includes compares with ===, so a
non-string value is never equal to a schema option). -/
def scStep (q : Question) (acc : CountMap × List AnswerValue) (v : AnswerValue) :
    CountMap × List AnswerValue :=
  match v with
  | .str s => if memB s q.options then (mapBump acc.1 s, acc.2) else (acc.1, acc.2 ++ [v])
  | _ => (acc.1, acc.2 ++ [v])

/-- analyzeSingleChoice (src/unnamed/part_004 lines 1246-1275) as a pure
function: the value list is pre-filtered by JS truthiness
(.filter(Boolean)), counts start zero-initialized over the options, a
synthesized "Other" bucket is written only when otherAnswers is
non-empty, and the total handed to the renderer is currentData.length. -/
def analyzeSingleChoice (q : Question) (key : String) (currentData : List Response) :
    CountMap × List AnswerValue × Nat :=
  let responseData := (currentData.map (fun r => r.get key)).filter AnswerValue.truthy
  let p := responseData.foldl (scStep q) (zeroCounts q.options, [])
  let counts := if p.2.length > 0 then setKey p.1 "Other" p.2.length else p.1
  (counts, p.2, currentData.length)

/-- One selected item of a multiple-choice answer (lines 1293-1300 and
1301-1309): schema options are counted (inserting the key when absent),
anything else goes to otherAnswers. -/
def mcCountOne (q : Question) (acc : CountMap × List AnswerValue) (s : String) :
    CountMap × List AnswerValue :=
  if memB s q.options then (bumpOrInsert acc.1 s, acc.2)
  else (acc.1, acc.2 ++ [AnswerValue.str s])

/-- Per-response step of analyzeMultipleChoice: an array answer
contributes each of its elements, a non-empty string answer contributes
itself, everything else (absent, empty string, object) contributes
nothing. -/
def mcStep (q : Question) (key : String) (acc : CountMap × List AnswerValue)
    (r : Response) : CountMap × List AnswerValue :=
  match r.get key with
  | .arr l => l.foldl (mcCountOne q) acc
  | .str s => if s = "" then acc else mcCountOne q acc s
  | _ => acc

/-- analyzeMultipleChoice (src/unnamed/part_004 lines 1278-1319) as a
pure function: counts start zero-initialized over the options, every
individual selection is counted independently, "Other" is synthesized
only when otherAnswers is non-empty, total is currentData.length. -/
def analyzeMultipleChoice (q : Question) (key : String) (currentData : List Response) :
    CountMap × List AnswerValue × Nat :=
  let p := currentData.foldl (mcStep q key) (zeroCounts q.options, [])
  let counts := if p.2.length > 0 then setKey p.1 "Other" p.2.length else p.1
  (counts, p.2, currentData.length)

/-- The item-by-scale count table of analyzeMatrix: an insertion-ordered
object of objects. -/
abbrev MatrixTable := List (String × CountMap)

/-- The zero table: one row per declared item, one zero cell per declared
scale label (lines 1337-1343). -/
def matrixInit : List String → List String → MatrixTable
  | [], _ => []
  | it :: rest, scale => (it, zeroCounts scale) :: matrixInit rest scale

/-- matrixData[item][value]++: the row with that item key is bumped at
the scale-label cell, every other row is untouched. -/
def bumpCell : MatrixTable → String → String → MatrixTable
  | [], _, _ => []
  | (a, row) :: rest, it, sc =>
    (if a = it then (a, mapBump row sc) else (a, row)) :: bumpCell rest it sc

/-- JS truthiness of matrixData[item]: key presence (rows are objects,
always truthy when present). -/
def tableHasRow : MatrixTable → String → Bool
  | [], _ => false
  | (a, _) :: rest, it => decide (a = it) || tableHasRow rest it

/-- One Object.entries pair of a matrix answer (lines 1349-1353): the
cell is incremented only when the item has a declared row and the value
is a declared scale label; otherwise the pair is silently dropped. -/
def applyMatrixEntry (scale : List String) (tbl : MatrixTable) (e : String × String) :
    MatrixTable :=
  if tableHasRow tbl e.1 && memB e.2 scale then bumpCell tbl e.1 e.2 else tbl

/-- Object.entries of an answer value as seen by analyzeMatrix: object
answers give their key/value pairs; an array answer (typeof === 'object'
in JS) gives index-keyed pairs; strings and absent values are skipped by
the truthiness-and-typeof guard on line 1348. -/
def entriesOf : AnswerValue → List (String × String)
  | .obj m => m
  | .arr l => l.enum.map (fun p => (toString p.1, p.2))
  | _ => []

/-- The count table built by analyzeMatrix over the current subset. -/
def matrixTableOf (q : Question) (key : String) (currentData : List Response) :
    MatrixTable :=
  currentData.foldl
    (fun tbl r => (entriesOf (r.get key)).foldl (applyMatrixEntry q.scale) tbl)
    (matrixInit q.items q.scale)

/-- analyzeMatrix (src/unnamed/part_004 lines 1322-1359): none models the
early return (chart cleared, no table) when the schema declares no items
or no scale; otherwise the table plus currentData.length. -/
def analyzeMatrix (q : Question) (key : String) (currentData : List Response) :
    Option (MatrixTable × Nat) :=
  if q.items.length = 0 || q.scale.length = 0 then none
  else some (matrixTableOf q key currentData, currentData.length)

/-- Row lookup in a matrix table (first row with the key, [] when the
item has no row). -/
def rowOf : MatrixTable → String → CountMap
  | [], _ => []
  | (it', row) :: rest, it => if it' = it then row else rowOf rest it

/-- Cell lookup matrixData[item][scaleLabel], 0 when missing. -/
def cellOf (tbl : MatrixTable) (it sc : String) : Nat :=
  lookupCount (rowOf tbl it) sc

/-- analyzeOpenText (src/unnamed/part_004 lines 1361-1376): collect the
trimmed text of every answer that is a string and non-blank after
trimming, in response order. -/
def analyzeOpenText (key : String) (currentData : List Response) : List String :=
  currentData.filterMap (fun r =>
    match r.get key with
    | .str s => if s = "" then none else if jsTrim s = "" then none else some (jsTrim s)
    | _ => none)

/-- The application data/filter state relevant to load-gating: the two
loaded documents (null before load), the loaded flag (set only after both
fetches parse), and the cached filtered subset (null until a filter pass
has run). -/
structure AppState where
  responses : Option (List Response)
  schema : Option Schema
  loaded : Bool
  filteredData : Option (List Response)
deriving DecidableEq

/-- getCurrentData (src/unnamed/part_004 lines 948-950):
this.filters.filteredData || this.data.responses || [].  An empty array
is truthy in JS, so an empty cached subset is returned as-is; only null
falls through. -/
def getCurrentData (filteredData dataResponses : Option (List Response)) :
    List Response :=
  match filteredData with
  | some l => l
  | none =>
    match dataResponses with
    | some l => l
    | none => []

/-- The aggregate result handed to the renderer, one shape per supported
question type. -/
inductive AnalysisResult where
  | single : CountMap → List AnswerValue → Nat → AnalysisResult
  | multi : CountMap → List AnswerValue → Nat → AnalysisResult
  | matrixR : MatrixTable → List String → Nat → AnalysisResult
  | openText : List String → AnalysisResult
deriving DecidableEq

/-- The type dispatch of analyzeQuestion (lines 1225-1242): unsupported
types (identifier, ranking) fall to the default branch, which clears the
chart and produces no aggregate. -/
def dispatchAnalyze (q : Question) (key : String) (cur : List Response) :
    Option AnalysisResult :=
  match q.qtype with
  | "single_choice" =>
    let p := analyzeSingleChoice q key cur
    some (.single p.1 p.2.1 p.2.2)
  | "multiple_choice" =>
    let p := analyzeMultipleChoice q key cur
    some (.multi p.1 p.2.1 p.2.2)
  | "matrix" =>
    match analyzeMatrix q key cur with
    | some p => some (.matrixR p.1 q.scale p.2)
    | none => none
  | "open_text" => some (.openText (analyzeOpenText key cur))
  | _ => none

/-- analyzeQuestion (src/unnamed/part_004 lines 1207-1243): rejects
immediately (returns with the chart cleared, producing no aggregate)
when the key is empty or this.data.loaded is false; also when the key
is absent from the schema.  The schema pattern match mirrors the fact
that after the loaded guard the schema object is always present. -/
def analyzeQuestionOp (st : AppState) (key : String) : Option AnalysisResult :=
  if key = "" then none
  else if !st.loaded then none
  else
    match st.schema with
    | none => none
    | some sc =>
      match getQuestion sc.questions key with
      | none => none
      | some q => dispatchAnalyze q key (getCurrentData st.filteredData st.responses)

/-- applyAllFilters as a state operation (lines 852-854): the guard
if (!responses) return makes it a no-op before the data load; the
schema-missing case is unreachable in the program because responses and
schema are assigned together, and is modelled as the same no-op. -/
def applyAllFiltersOp (st : AppState) (accRole accExp : List String)
    (rows : List FilterRow) (mode : CombineMode) : AppState :=
  match st.responses with
  | none => st
  | some rs =>
    match st.schema with
    | none => st
    | some sc =>
      { st with filteredData := some (applyAllFilters sc rs accRole accExp rows mode) }

/-- The state before the two document loads have completed: nothing
assigned, loaded flag down. -/
def NotLoaded (st : AppState) : Prop :=
  st.responses = none ∧ st.schema = none ∧ st.loaded = false ∧ st.filteredData = none

/-- The out-of-vocabulary test of populateDemographicOptions (src/unnamed/
part_004 lines 709-715): a value counts toward "Other" when it is truthy,
non-blank after trimming, and absent from the schema options.  Only
string values reach the trim call for the demographic (single-choice)
questions this function is applied to. -/
def isOtherDemoValue (options : List String) : AnswerValue → Bool
  | .str s => decide (s ≠ "") && decide (jsTrim s ≠ "") && !(memB s options)
  | _ => false

/-- The number of responses whose value for the question counts as
"Other" (lines 708-715). -/
def otherDemoCount (q : Question) (responses : List Response) (key : String) : Nat :=
  (responses.filter (fun r => isOtherDemoValue q.options (r.get key))).length

/-- The selectable option list built by populateDemographicOptions (lines
717-722): the schema options, plus the sentinel "Other" exactly when some
response has an out-of-vocabulary value.  The subsequent in-place sort by
descending count only permutes this list and does not change membership,
so it is omitted here. -/
def populateAllOptions (q : Question) (responses : List Response) (key : String) :
    List String :=
  if otherDemoCount q responses key > 0 then q.options ++ ["Other"] else q.options

/-- The initial accepted set new Set(allOptions) (line 754): same
membership as the selectable option list. -/
def initialAcceptedSet (q : Question) (responses : List Response) (key : String) :
    List String :=
  (populateAllOptions q responses key).dedup

/-- Spec-side demographic value test, following claim C1's words: the
value must be in the accepted set, where a value not in the schema
options is tested by asking whether the sentinel "Other" is accepted
rather than the literal value, and a missing or empty value always
fails. -/
def claimValuePass (options acc : List String) : AnswerValue → Bool
  | .absent => false
  | .str s => decide (s ≠ "") && (if memB s options then memB s acc else memB "Other" acc)
  | .arr _ => memB "Other" acc
  | .obj _ => memB "Other" acc

/-- The demographic stage as claim C1 states it: the claimed rule applied
uniformly to both demographic questions. -/
def claimDemoPass (schema : Schema) (accRole accExp : List String) (r : Response) : Bool :=
  match schema.getQ "professional_role", schema.getQ "years_experience" with
  | some qr, some qe =>
    claimValuePass qr.options accRole (r.get "professional_role") &&
      claimValuePass qe.options accExp (r.get "years_experience")
  | _, _ => false

/-- The literal years_experience test the code actually performs: a Set
of strings can only contain strings, so has(expValue) is string-typed
membership of the raw value. -/
def expLiteralPass (accExp : List String) : AnswerValue → Bool
  | .str s => memB s accExp
  | _ => false

/-- The demographic stage as amended: the claimed "Other"-sentinel rule
for professional_role (which also requires the role question to exist in
the schema), but a literal accepted-set membership test for
years_experience. -/
def amendedDemoPass (schema : Schema) (accRole accExp : List String) (r : Response) : Bool :=
  match schema.getQ "professional_role" with
  | some qr =>
    claimValuePass qr.options accRole (r.get "professional_role") &&
      expLiteralPass accExp (r.get "years_experience")
  | none => false

/-- Spec-side single ad-hoc filter test, following claim C4's words: with
negate false the filter is satisfied exactly when the target value is a
member of an array-valued answer, or is string-equal to a non-array
answer; negate true inverts that per-filter result. -/
def specAdvSat (r : Response) (qid v : String) (negate : Bool) : Bool :=
  let base : Bool :=
    match r.get qid with
    | .arr seq => memB v seq
    | .str s => decide (v = s)
    | _ => false
  if negate then !base else base

/-- Whether a value is a string drawn from the question's schema options
(the values analyzeSingleChoice counts into named buckets). -/
def isSchemaValue (q : Question) : AnswerValue → Bool
  | .str s => memB s q.options
  | _ => false

/-- The professional_role options of the real schema document
(survey-questions-schema.json, src/unnamed/part_002). -/
def roleOptions : List String :=
  ["Level Designer", "Game Designer", "Technical Artist", "Environment Artist",
   "Programmer/Technical Designer", "Academic/Researcher"]

/-- The years_experience options of the real schema document. -/
def expOptions : List String :=
  ["0-2 years", "3-5 years", "6-10 years", "10+ years"]

/-- The game_engines options of the real schema document. -/
def engineOptions : List String :=
  ["Unity", "Unreal Engine", "Godot", "Custom in-house engine", "GameMaker"]

/-- The professional_role question of the real schema. -/
def roleQ : Question :=
  { qtext := "How would you primarily describe your professional role?",
    qtype := "single_choice", options := roleOptions }

/-- The years_experience question of the real schema. -/
def expQ : Question :=
  { qtext := "How many years of experience do you have in game development?",
    qtype := "single_choice", options := expOptions }

/-- The game_engines question of the real schema. -/
def enginesQ : Question :=
  { qtext := "Which game engine(s) do you primarily work with? (Select all that apply)",
    qtype := "multiple_choice", options := engineOptions }

/-- A fragment of the real schema document with the two demographic
questions and one multiple-choice question. -/
def plgSchema : Schema :=
  ⟨[("professional_role", roleQ), ("years_experience", expQ),
    ("game_engines", enginesQ)]⟩

/-- A response whose years_experience value is out of vocabulary. -/
def respOovExp : Response :=
  ⟨[("professional_role", .str "Level Designer"),
    ("years_experience", .str "42 years")]⟩

/-- A response with in-vocabulary demographics and an engine list
containing one out-of-vocabulary entry. -/
def respA : Response :=
  ⟨[("professional_role", .str "Level Designer"),
    ("years_experience", .str "0-2 years"),
    ("game_engines", .arr ["Unity", "CustomEngine"])]⟩

/-- A response with no fields at all (every lookup is undefined). -/
def respEmpty : Response :=
  ⟨[]⟩

/-- A response whose professional_role is a whitespace-only string. -/
def respBlankRole : Response :=
  ⟨[("professional_role", .str " ")]⟩

/-- The store for the C2 counterexample: a single response that answered
neither demographic question. -/
def c2Store : List Response :=
  [respEmpty]

/-- Options question for the C3 example: exactly the spec's
options = ["Unity", "Godot"] multiple-choice question. -/
def c3Q : Question :=
  { qtext := "Engines", qtype := "multiple_choice", options := ["Unity", "Godot"] }

/-- The single C3 response ["Unity", "CustomEngine"]. -/
def c3Store : List Response :=
  [⟨[("engines", .arr ["Unity", "CustomEngine"])]⟩]

/-- Single-choice question for the C5 counterexample. -/
def c5Q : Question :=
  { qtext := "Role", qtype := "single_choice", options := ["A"] }

/-- The C5 counterexample store: one response without a value for the
analyzed question. -/
def c5Store : List Response :=
  [respEmpty]

/-- Matrix question for the C6 example: items = ["Houdini"],
scale = ["None", "Some"]. -/
def houdiniQ : Question :=
  { qtext := "Tools", qtype := "matrix", items := ["Houdini"], scale := ["None", "Some"] }

/-- The uninitialized application state before any load completes. -/
def st0 : AppState :=
  ⟨none, none, false, none⟩

/-- A response whose professional_role is a genuine out-of-vocabulary
string. -/
def respOther : Response :=
  ⟨[("professional_role", .str "Hobbyist")]⟩

/-- Single-choice question for the C5 witness. -/
def c5wQ : Question :=
  { qtext := "Role", qtype := "single_choice", options := ["A", "B"] }

/-- Store for the C5 witness: two in-vocabulary answers, one
out-of-vocabulary answer, one missing answer. -/
def c5wStore : List Response :=
  [⟨[("role", .str "A")]⟩, ⟨[("role", .str "X")]⟩, ⟨[]⟩, ⟨[("role", .str "A")]⟩]

theorem lem_applyAllFilters_sublist (schema : Schema) (responses : List Response)
    (accRole accExp : List String) (rows : List FilterRow) (mode : CombineMode) :
    (applyAllFilters schema responses accRole accExp rows mode).Sublist responses := by
  dsimp only [applyAllFilters]
  split
  · exact (List.filter_sublist _).trans (List.filter_sublist _)
  · exact List.filter_sublist _

theorem lem_hasKey_mapBump (m : CountMap) (s k : String) :
    hasKey (mapBump m s) k = hasKey m k := by
  induction m with
  | nil => rfl
  | cons p rest ih =>
    obtain ⟨a, n⟩ := p
    simp only [mapBump]
    by_cases hp : a = s
    · rw [if_pos hp]
      simp [hasKey, ih]
    · rw [if_neg hp]
      simp [hasKey, ih]

theorem lem_lookup_mapBump_ne (m : CountMap) (s k : String) (h : s ≠ k) :
    lookupCount (mapBump m s) k = lookupCount m k := by
  induction m with
  | nil => rfl
  | cons p rest ih =>
    obtain ⟨a, n⟩ := p
    simp only [mapBump]
    by_cases hp : a = s
    · have hak : ¬ a = k := by rw [hp]; exact h
      rw [if_pos hp]
      simp only [lookupCount]
      rw [if_neg hak, if_neg hak]
      exact ih
    · rw [if_neg hp]
      simp only [lookupCount]
      by_cases hk : a = k
      · rw [if_pos hk, if_pos hk]
      · rw [if_neg hk, if_neg hk]
        exact ih

theorem lem_lookup_mapBump_self (m : CountMap) (k : String) (h : hasKey m k = true) :
    lookupCount (mapBump m k) k = lookupCount m k + 1 := by
  induction m with
  | nil => simp [hasKey] at h
  | cons p rest ih =>
    obtain ⟨a, n⟩ := p
    simp only [mapBump]
    by_cases hp : a = k
    · rw [if_pos hp]
      simp only [lookupCount]
      rw [if_pos hp, if_pos hp]
    · have h' : hasKey rest k = true := by simpa [hasKey, hp] using h
      rw [if_neg hp]
      simp only [lookupCount]
      rw [if_neg hp, if_neg hp]
      exact ih h'

theorem lem_hasKey_zeroCounts (options : List String) (k : String) :
    hasKey (zeroCounts options) k = memB k options := by
  induction options with
  | nil => rfl
  | cons o rest ih =>
    simp only [zeroCounts, hasKey, ih, memB, List.mem_cons]
    by_cases h : o = k
    · subst h
      simp
    · simp [h, show ¬ k = o from fun hc => h hc.symm]

theorem lem_lookup_zeroCounts (options : List String) (k : String) :
    lookupCount (zeroCounts options) k = 0 := by
  induction options with
  | nil => rfl
  | cons o rest ih => by_cases h : o = k <;> simp [zeroCounts, lookupCount, h, ih]

theorem lem_hasKey_append (m m' : CountMap) (k : String) :
    hasKey (m ++ m') k = (hasKey m k || hasKey m' k) := by
  induction m with
  | nil => rfl
  | cons p rest ih =>
    obtain ⟨a, n⟩ := p
    simp [hasKey, ih, Bool.or_assoc]

theorem lem_lookup_append_left (m m' : CountMap) (k : String) (h : hasKey m k = true) :
    lookupCount (m ++ m') k = lookupCount m k := by
  induction m with
  | nil => simp [hasKey] at h
  | cons p rest ih =>
    obtain ⟨a, n⟩ := p
    by_cases hp : a = k
    · simp [lookupCount, hp]
    · have h' : hasKey rest k = true := by simpa [hasKey, hp] using h
      simp [lookupCount, hp, ih h']

theorem lem_lookup_append_right (m m' : CountMap) (k : String) (h : hasKey m k = false) :
    lookupCount (m ++ m') k = lookupCount m' k := by
  induction m with
  | nil => rfl
  | cons p rest ih =>
    obtain ⟨a, n⟩ := p
    have hp : ¬ a = k := by
      intro hc
      simp [hasKey, hc] at h
    have h' : hasKey rest k = false := by simpa [hasKey, hp] using h
    simp [lookupCount, hp, ih h']

theorem lem_decide_eq_symm (s v : String) : decide (s = v) = decide (v = s) := by
  by_cases h : s = v
  · simp [h]
  · have h' : ¬ v = s := fun hv => h hv.symm
    simp [h, h']

theorem lem_advBase_spec (r : Response) (q v : String) :
    advBase r q v = specAdvSat r q v false := by
  dsimp only [advBase, specAdvSat]
  cases r.get q with
  | absent => rfl
  | str s => exact lem_decide_eq_symm s v
  | arr l => rfl
  | obj m => rfl

theorem lem_toggleNegate_twice (rows : List FilterRow) (i : Nat) :
    toggleNegate (toggleNegate rows i) i = rows := by
  induction rows generalizing i with
  | nil => cases i <;> rfl
  | cons f rest ih =>
    cases i with
    | zero => simp [toggleNegate]
    | succ n => simp [toggleNegate, ih]

/-- Claim C10: for every filter state, the subset produced by
applyAllFilters is an order-preserving sublist of the response store
(List.Sublist captures both the relative-order preservation and the
at-most-once multiplicity), and a store without duplicate records yields
a subset without duplicate records. -/
theorem C10_filter_order_preserving (schema : Schema) (responses : List Response)
    (accRole accExp : List String) (rows : List FilterRow) (mode : CombineMode) :
    (applyAllFilters schema responses accRole accExp rows mode).Sublist responses
    ∧ (responses.Nodup →
        (applyAllFilters schema responses accRole accExp rows mode).Nodup) :=
  ⟨lem_applyAllFilters_sublist schema responses accRole accExp rows mode,
   fun h => (lem_applyAllFilters_sublist schema responses accRole accExp rows mode).nodup h⟩

theorem C10_witness :
    ([respA, respOovExp] : List Response).Nodup
    ∧ (applyAllFilters plgSchema [respA, respOovExp] roleOptions expOptions []
        CombineMode.AND).Nodup :=
  ⟨by decide,
   (C10_filter_order_preserving plgSchema [respA, respOovExp] roleOptions expOptions []
      CombineMode.AND).2 (by decide)⟩

/-- Claim C7: with exactly one active ad-hoc filter, AND mode and OR mode
produce the same filtered subset. -/
theorem C7_single_filter_and_or (schema : Schema) (responses : List Response)
    (accRole accExp : List String) (rows : List FilterRow) (f : FilterRow)
    (h : getActiveAdvancedFilters rows = [f]) :
    applyAllFilters schema responses accRole accExp rows CombineMode.AND
      = applyAllFilters schema responses accRole accExp rows CombineMode.OR := by
  dsimp only [applyAllFilters]
  rw [h]
  simp [advCombine]

theorem C7_witness :
    getActiveAdvancedFilters [⟨"game_engines", "Unity", false⟩]
      = [⟨"game_engines", "Unity", false⟩]
    ∧ applyAllFilters plgSchema [respA, respOovExp] roleOptions expOptions
        [⟨"game_engines", "Unity", false⟩] CombineMode.AND
      = applyAllFilters plgSchema [respA, respOovExp] roleOptions expOptions
        [⟨"game_engines", "Unity", false⟩] CombineMode.OR :=
  ⟨by decide,
   C7_single_filter_and_or plgSchema [respA, respOovExp] roleOptions expOptions
     [⟨"game_engines", "Unity", false⟩] ⟨"game_engines", "Unity", false⟩ (by decide)⟩

/-- Claim C4: the per-filter test is membership for array answers and
string equality for non-array answers, negate inverts exactly that
per-filter result, and toggling one filter's negate flag twice restores
the filtered subset computed by applyAllFilters. -/
theorem C4_negate_semantics :
    (∀ (r : Response) (f : FilterRow),
        advMatch r f = specAdvSat r f.question f.value f.negate)
    ∧ (∀ (r : Response) (q v : String),
        advMatch r ⟨q, v, true⟩ = !(advMatch r ⟨q, v, false⟩))
    ∧ (∀ (schema : Schema) (responses : List Response) (accRole accExp : List String)
        (rows : List FilterRow) (mode : CombineMode) (i : Nat),
        applyAllFilters schema responses accRole accExp
            (toggleNegate (toggleNegate rows i) i) mode
          = applyAllFilters schema responses accRole accExp rows mode) := by
  refine ⟨?_, ?_, ?_⟩
  · intro r f
    obtain ⟨q, v, n⟩ := f
    cases n with
    | false => simpa [advMatch] using lem_advBase_spec r q v
    | true =>
      have h1 : advMatch r ⟨q, v, true⟩ = (!(advBase r q v)) := rfl
      have h2 : specAdvSat r q v true = (!(specAdvSat r q v false)) := rfl
      rw [h1, h2, lem_advBase_spec]
  · intro r q v
    rfl
  · intro schema responses accRole accExp rows mode i
    rw [lem_toggleNegate_twice]

/-- Claim C8: before the two document loads have completed (nothing
assigned, loaded flag false), applyAllFilters is a no-op on the state,
analyzeQuestion produces no aggregate, and getCurrentData yields the
empty dataset — no operation computes over partial data. -/
theorem C8_reject_before_load (st : AppState) (h : NotLoaded st)
    (accRole accExp : List String) (rows : List FilterRow) (mode : CombineMode)
    (key : String) :
    applyAllFiltersOp st accRole accExp rows mode = st
    ∧ analyzeQuestionOp st key = none
    ∧ getCurrentData st.filteredData st.responses = [] := by
  obtain ⟨h1, h2, h3, h4⟩ := h
  refine ⟨?_, ?_, ?_⟩
  · simp [applyAllFiltersOp, h1]
  · simp [analyzeQuestionOp, h3]
  · simp [getCurrentData, h1, h4]

theorem C8_witness :
    NotLoaded st0
    ∧ (applyAllFiltersOp st0 [] [] [] CombineMode.AND = st0
        ∧ analyzeQuestionOp st0 "professional_role" = none
        ∧ getCurrentData st0.filteredData st0.responses = []) :=
  ⟨⟨rfl, rfl, rfl, rfl⟩,
   C8_reject_before_load st0 ⟨rfl, rfl, rfl, rfl⟩ [] [] [] CombineMode.AND
     "professional_role"⟩

/-- Claim C1 counterexample: a response whose years_experience value
"42 years" is outside the schema options, with the sentinel "Other"
accepted for years_experience.  The claimed uniform rule accepts the
response; the code's demographic stage rejects it, because
years_experience is tested by literal set membership and never against
the "Other" sentinel. -/
theorem C1_counterexample :
    claimDemoPass plgSchema roleOptions (expOptions ++ ["Other"]) respOovExp = true
    ∧ demoPass plgSchema roleOptions (expOptions ++ ["Other"]) respOovExp = false := by
  decide

/-- Claim C1 (amended): a response passes the demographic stage iff its
professional_role value passes the claimed rule (non-empty; in-vocabulary
values tested literally against the accepted set, out-of-vocabulary
values tested via the "Other" sentinel; requires the role question to be
present in the schema) and its years_experience value is a string that is
literally a member of the experience accepted set — out-of-vocabulary
experience values are compared literally, never via "Other", and missing
values fail. -/
theorem C1_demographic_stage_amended (schema : Schema) (accRole accExp : List String)
    (r : Response) :
    demoPass schema accRole accExp r = amendedDemoPass schema accRole accExp r := by
  cases hq : schema.getQ "professional_role" <;>
    cases hv : r.get "professional_role" <;>
      simp [demoPass, amendedDemoPass, claimValuePass, AnswerValue.truthy,
        expLiteralPass, hq, hv]

/-- Claim C2 counterexample: a store holding one response that answered
neither demographic question.  Both accepted sets equal the full
selectable option lists built by populateDemographicOptions (no "Other"
is offered since no out-of-vocabulary value exists), zero ad-hoc filters
are active, yet the filtered subset is empty rather than the full
store, because a missing demographic value always fails the stage. -/
theorem C2_counterexample :
    populateAllOptions roleQ c2Store "professional_role" = roleOptions
    ∧ populateAllOptions expQ c2Store "years_experience" = expOptions
    ∧ getActiveAdvancedFilters [] = []
    ∧ applyAllFilters plgSchema c2Store roleOptions expOptions [] CombineMode.AND = []
    ∧ c2Store.length = 1 := by
  decide

/-- Claim C2 (amended): the filtered subset is always an order-preserving
sublist of the store, so its size never exceeds the store's; and it
equals the full store when additionally zero ad-hoc filters are active,
the role accepted set contains every role option and the "Other"
sentinel, every response has a truthy professional_role value, and every
response's years_experience value is a string literally contained in the
experience accepted set. -/
theorem C2_subset_and_full_store :
    (∀ (schema : Schema) (responses : List Response) (accRole accExp : List String)
        (rows : List FilterRow) (mode : CombineMode),
        (applyAllFilters schema responses accRole accExp rows mode).Sublist responses
        ∧ (applyAllFilters schema responses accRole accExp rows mode).length
            ≤ responses.length)
    ∧ (∀ (schema : Schema) (responses : List Response) (accRole accExp : List String)
        (rows : List FilterRow) (mode : CombineMode) (qr : Question),
        schema.getQ "professional_role" = some qr →
        (∀ s ∈ qr.options, memB s accRole = true) →
        memB "Other" accRole = true →
        (∀ r ∈ responses, (r.get "professional_role").truthy = true) →
        (∀ r ∈ responses, expLiteralPass accExp (r.get "years_experience") = true) →
        getActiveAdvancedFilters rows = [] →
        applyAllFilters schema responses accRole accExp rows mode = responses) := by
  constructor
  · intro schema responses accRole accExp rows mode
    exact ⟨lem_applyAllFilters_sublist schema responses accRole accExp rows mode,
      (lem_applyAllFilters_sublist schema responses accRole accExp rows mode).length_le⟩
  · intro schema responses accRole accExp rows mode qr hq hacc hoth hrole hexp hadv
    dsimp only [applyAllFilters]
    rw [hadv]
    simp only [List.length_nil, gt_iff_lt, lt_self_iff_false, if_false]
    apply List.filter_eq_self.mpr
    intro r hr
    have hrole' := hrole r hr
    have hexp' := hexp r hr
    have hothm : "Other" ∈ accRole := by simpa [memB] using hoth
    dsimp only [demoPass]
    rw [hq]
    cases he : r.get "years_experience" with
    | absent => rw [he] at hexp'; simp [expLiteralPass] at hexp'
    | arr l' => rw [he] at hexp'; simp [expLiteralPass] at hexp'
    | obj m' => rw [he] at hexp'; simp [expLiteralPass] at hexp'
    | str t =>
      rw [he] at hexp'
      simp only [expLiteralPass, memB, decide_eq_true_eq] at hexp'
      cases hv : r.get "professional_role" with
      | absent => rw [hv] at hrole'; simp [AnswerValue.truthy] at hrole'
      | str s =>
        rw [hv] at hrole'
        simp only [AnswerValue.truthy, decide_eq_true_eq] at hrole'
        by_cases hm : s ∈ qr.options
        · have hsa : s ∈ accRole := by simpa [memB] using hacc s hm
          simp [AnswerValue.truthy, memB, hm, hrole', hexp', hsa]
        · simp [AnswerValue.truthy, memB, hm, hrole', hexp', hothm]
      | arr l => simp [AnswerValue.truthy, memB, hexp', hothm]
      | obj m => simp [AnswerValue.truthy, memB, hexp', hothm]

theorem C2_witness :
    (∀ s ∈ roleQ.options, memB s (roleOptions ++ ["Other"]) = true)
    ∧ memB "Other" (roleOptions ++ ["Other"]) = true
    ∧ applyAllFilters plgSchema [respA] (roleOptions ++ ["Other"]) expOptions []
        CombineMode.AND = [respA] :=
  ⟨by decide, by decide,
   C2_subset_and_full_store.2 plgSchema [respA] (roleOptions ++ ["Other"]) expOptions []
     CombineMode.AND roleQ (by decide) (by decide) (by decide) (by decide) (by decide)
     (by decide)⟩

/-- Claim C3 counterexample: on the spec's own example the counts object
produced by analyzeMultipleChoice is not {"Unity": 1, "Other": 1} — it
also carries a zero-initialized "Godot" entry, because the aggregator
first writes counts[option] = 0 for every schema option. -/
theorem C3_counterexample :
    (analyzeMultipleChoice c3Q "engines" c3Store).1 ≠ [("Unity", 1), ("Other", 1)]
    ∧ hasKey (analyzeMultipleChoice c3Q "engines" c3Store).1 "Godot" = true := by
  decide

/-- Claim C3 (amended): for options ["Unity", "Godot"] and the single
response ["Unity", "CustomEngine"], the aggregation produces
counts = {"Unity": 1, "Godot": 0, "Other": 1} (every schema option
zero-initialized), otherAnswers = ["CustomEngine"], and the subset size 1
as total. -/
theorem C3_multiple_choice_example :
    analyzeMultipleChoice c3Q "engines" c3Store
      = ([("Unity", 1), ("Godot", 0), ("Other", 1)],
         [AnswerValue.str "CustomEngine"], 1) := by
  decide

theorem lem_scFold (q : Question) (l : List AnswerValue) :
    ∀ (m : CountMap) (os : List AnswerValue),
      (∀ j, hasKey m j = memB j q.options) →
      ((l.foldl (scStep q) (m, os)).2
          = os ++ l.filter (fun v => !(isSchemaValue q v)))
      ∧ (∀ j, hasKey ((l.foldl (scStep q) (m, os)).1) j = memB j q.options)
      ∧ (∀ k, memB k q.options = true →
          lookupCount ((l.foldl (scStep q) (m, os)).1) k
            = lookupCount m k + l.count (AnswerValue.str k)) := by
  induction l with
  | nil =>
    intro m os hm
    exact ⟨by simp, hm, fun k _ => by simp⟩
  | cons v rest ih =>
    intro m os hm
    cases v with
    | str s =>
      by_cases hs : memB s q.options = true
      · have hstep : scStep q (m, os) (AnswerValue.str s) = (mapBump m s, os) := by
          simp [scStep, hs]
        rw [List.foldl_cons, hstep]
        have hm' : ∀ j, hasKey (mapBump m s) j = memB j q.options := fun j => by
          rw [lem_hasKey_mapBump]
          exact hm j
        obtain ⟨ih1, ih2, ih3⟩ := ih (mapBump m s) os hm'
        refine ⟨?_, ih2, ?_⟩
        · rw [ih1]
          simp [List.filter_cons, isSchemaValue, hs]
        · intro k hk
          rw [ih3 k hk]
          by_cases hsk : s = k
          · subst hsk
            rw [lem_lookup_mapBump_self m s (by rw [hm s]; exact hs)]
            simp [List.count_cons]
            omega
          · rw [lem_lookup_mapBump_ne m s k hsk]
            simp [List.count_cons, hsk]
      · have hstep : scStep q (m, os) (AnswerValue.str s)
            = (m, os ++ [AnswerValue.str s]) := by
          simp [scStep, hs]
        rw [List.foldl_cons, hstep]
        obtain ⟨ih1, ih2, ih3⟩ := ih m (os ++ [AnswerValue.str s]) hm
        refine ⟨?_, ih2, ?_⟩
        · rw [ih1]
          simp [List.filter_cons, isSchemaValue, hs]
        · intro k hk
          rw [ih3 k hk]
          have hsk : ¬ s = k := fun hc => hs (by rw [hc]; exact hk)
          simp [List.count_cons, hsk]
    | absent =>
      rw [List.foldl_cons]
      obtain ⟨ih1, ih2, ih3⟩ := ih m (os ++ [AnswerValue.absent]) hm
      refine ⟨?_, ih2, ?_⟩
      · rw [show scStep q (m, os) AnswerValue.absent
            = (m, os ++ [AnswerValue.absent]) from rfl, ih1]
        simp [List.filter_cons, isSchemaValue]
      · intro k hk
        rw [show scStep q (m, os) AnswerValue.absent
            = (m, os ++ [AnswerValue.absent]) from rfl, ih3 k hk]
        simp [List.count_cons]
    | arr a =>
      rw [List.foldl_cons]
      obtain ⟨ih1, ih2, ih3⟩ := ih m (os ++ [AnswerValue.arr a]) hm
      refine ⟨?_, ih2, ?_⟩
      · rw [show scStep q (m, os) (AnswerValue.arr a)
            = (m, os ++ [AnswerValue.arr a]) from rfl, ih1]
        simp [List.filter_cons, isSchemaValue]
      · intro k hk
        rw [show scStep q (m, os) (AnswerValue.arr a)
            = (m, os ++ [AnswerValue.arr a]) from rfl, ih3 k hk]
        simp [List.count_cons]
    | obj b =>
      rw [List.foldl_cons]
      obtain ⟨ih1, ih2, ih3⟩ := ih m (os ++ [AnswerValue.obj b]) hm
      refine ⟨?_, ih2, ?_⟩
      · rw [show scStep q (m, os) (AnswerValue.obj b)
            = (m, os ++ [AnswerValue.obj b]) from rfl, ih1]
        simp [List.filter_cons, isSchemaValue]
      · intro k hk
        rw [show scStep q (m, os) (AnswerValue.obj b)
            = (m, os ++ [AnswerValue.obj b]) from rfl, ih3 k hk]
        simp [List.count_cons]

/-- Claim C5 counterexample: a subset holding one response with no value
for the analyzed question.  The aggregation counts nothing and collects
nothing, yet the total it reports alongside counts is the full subset
size 1, not 0 — empty/absent answers are not excluded from the reported
total. -/
theorem C5_counterexample :
    analyzeSingleChoice c5Q "role" c5Store = ([("A", 0)], [], 1)
    ∧ c5Store.length = 1
    ∧ (c5Store.map (fun r => r.get "role")).filter AnswerValue.truthy = [] := by
  decide

/-- Claim C5 (amended): single-choice aggregation counts each truthy
string value found in the schema options into that option's bucket;
every other truthy value is appended, in order, to otherAnswers; the
synthesized "Other" bucket is present iff otherAnswers is non-empty and
then holds its length; empty/absent answers contribute to no bucket and
to no other-answer; but the total reported alongside the counts is the
full subset length, including responses with empty/absent answers
(assuming the sentinel "Other" and the empty string are not themselves
schema options). -/
theorem C5_single_choice_amended (q : Question) (key : String) (cur : List Response)
    (hno : "Other" ∉ q.options) (hne : "" ∉ q.options) :
    (∀ o ∈ q.options,
        lookupCount (analyzeSingleChoice q key cur).1 o
          = (cur.map (fun r => r.get key)).count (AnswerValue.str o))
    ∧ (analyzeSingleChoice q key cur).2.1
        = (cur.map (fun r => r.get key)).filter
            (fun v => v.truthy && !(isSchemaValue q v))
    ∧ (hasKey (analyzeSingleChoice q key cur).1 "Other" = true
        ↔ (analyzeSingleChoice q key cur).2.1 ≠ [])
    ∧ ((analyzeSingleChoice q key cur).2.1 ≠ [] →
        lookupCount (analyzeSingleChoice q key cur).1 "Other"
          = (analyzeSingleChoice q key cur).2.1.length)
    ∧ (analyzeSingleChoice q key cur).2.2 = cur.length := by
  have hOopt : memB "Other" q.options = false := by
    simp [memB, hno]
  obtain ⟨hother, hkeys, hcount⟩ := lem_scFold q
    ((cur.map (fun r => r.get key)).filter AnswerValue.truthy)
    (zeroCounts q.options) [] (fun j => lem_hasKey_zeroCounts q.options j)
  have hsk : analyzeSingleChoice q key cur
      = (if (((cur.map (fun r => r.get key)).filter AnswerValue.truthy).foldl
              (scStep q) (zeroCounts q.options, [])).2.length > 0
         then setKey (((cur.map (fun r => r.get key)).filter AnswerValue.truthy).foldl
              (scStep q) (zeroCounts q.options, [])).1 "Other"
              (((cur.map (fun r => r.get key)).filter AnswerValue.truthy).foldl
              (scStep q) (zeroCounts q.options, [])).2.length
         else (((cur.map (fun r => r.get key)).filter AnswerValue.truthy).foldl
              (scStep q) (zeroCounts q.options, [])).1,
         (((cur.map (fun r => r.get key)).filter AnswerValue.truthy).foldl
              (scStep q) (zeroCounts q.options, [])).2,
         cur.length) := rfl
  set P := ((cur.map (fun r => r.get key)).filter AnswerValue.truthy).foldl
      (scStep q) (zeroCounts q.options, []) with hP
  rw [hsk]
  have hkeyO : hasKey P.1 "Other" = false := by
    rw [hkeys "Other", hOopt]
  by_cases hlen : P.2.length > 0
  · rw [if_pos hlen]
    have hset : setKey P.1 "Other" P.2.length = P.1 ++ [("Other", P.2.length)] := by
      rw [setKey, if_neg (by rw [hkeyO]; exact Bool.false_ne_true)]
    rw [hset]
    refine ⟨?_, ?_, ?_, ?_, rfl⟩
    · intro o ho
      have hmo : memB o q.options = true := by simp [memB, ho]
      have hone : o ≠ "" := fun hc => hne (hc ▸ ho)
      rw [lem_lookup_append_left _ _ _ (by rw [hkeys o, hmo])]
      rw [hcount o hmo, lem_lookup_zeroCounts]
      rw [List.count_filter (by simp [AnswerValue.truthy, hone])]
      omega
    · rw [hother]
      simp only [List.nil_append]
      rw [List.filter_filter]
      exact List.filter_congr (fun a _ => Bool.and_comm _ _)
    · constructor
      · intro _
        exact List.length_pos.mp hlen
      · intro _
        rw [lem_hasKey_append, hkeyO]
        simp [hasKey]
    · intro _
      rw [lem_lookup_append_right _ _ _ hkeyO]
      simp [lookupCount]
  · rw [if_neg hlen]
    have hempty : P.2 = [] := by
      have := Nat.eq_zero_of_not_pos hlen
      exact List.length_eq_zero.mp this
    refine ⟨?_, ?_, ?_, ?_, rfl⟩
    · intro o ho
      have hmo : memB o q.options = true := by simp [memB, ho]
      have hone : o ≠ "" := fun hc => hne (hc ▸ ho)
      rw [hcount o hmo, lem_lookup_zeroCounts]
      rw [List.count_filter (by simp [AnswerValue.truthy, hone])]
      omega
    · rw [hother]
      simp only [List.nil_append]
      rw [List.filter_filter]
      exact List.filter_congr (fun a _ => Bool.and_comm _ _)
    · constructor
      · intro hk
        rw [hkeys "Other", hOopt] at hk
        exact absurd hk Bool.false_ne_true
      · intro hne2
        exact absurd hempty hne2
    · intro hne2
      exact absurd hempty hne2

theorem C5_witness :
    ("Other" ∉ c5wQ.options ∧ "" ∉ c5wQ.options)
    ∧ ((∀ o ∈ c5wQ.options,
          lookupCount (analyzeSingleChoice c5wQ "role" c5wStore).1 o
            = (c5wStore.map (fun r => r.get "role")).count (AnswerValue.str o))
      ∧ (analyzeSingleChoice c5wQ "role" c5wStore).2.1
          = (c5wStore.map (fun r => r.get "role")).filter
              (fun v => v.truthy && !(isSchemaValue c5wQ v))
      ∧ (hasKey (analyzeSingleChoice c5wQ "role" c5wStore).1 "Other" = true
          ↔ (analyzeSingleChoice c5wQ "role" c5wStore).2.1 ≠ [])
      ∧ ((analyzeSingleChoice c5wQ "role" c5wStore).2.1 ≠ [] →
          lookupCount (analyzeSingleChoice c5wQ "role" c5wStore).1 "Other"
            = (analyzeSingleChoice c5wQ "role" c5wStore).2.1.length)
      ∧ (analyzeSingleChoice c5wQ "role" c5wStore).2.2 = c5wStore.length) :=
  ⟨⟨by decide, by decide⟩,
   C5_single_choice_amended c5wQ "role" c5wStore (by decide) (by decide)⟩

theorem lem_keys_zeroCounts (scale : List String) :
    (zeroCounts scale).map Prod.fst = scale := by
  induction scale with
  | nil => rfl
  | cons s rest ih => simp [zeroCounts, ih]

theorem lem_keys_mapBump (m : CountMap) (s : String) :
    (mapBump m s).map Prod.fst = m.map Prod.fst := by
  induction m with
  | nil => rfl
  | cons p rest ih =>
    obtain ⟨a, n⟩ := p
    simp only [mapBump]
    by_cases hp : a = s
    · rw [if_pos hp]
      simp [ih]
    · rw [if_neg hp]
      simp [ih]

theorem lem_hasKey_eq_keys (k : String) (m : CountMap) (ks : List String)
    (h : m.map Prod.fst = ks) : hasKey m k = memB k ks := by
  induction m generalizing ks with
  | nil => rw [← h]; rfl
  | cons p rest ih =>
    obtain ⟨a, n⟩ := p
    subst h
    simp only [List.map_cons, hasKey, memB, List.mem_cons]
    by_cases hk : a = k
    · subst hk
      simp
    · simp [hk, show ¬ k = a from fun hc => hk hc.symm]
      simpa [memB] using ih (rest.map Prod.fst) rfl

theorem lem_tableHasRow_eq_keys (it : String) (tbl : MatrixTable) (ks : List String)
    (h : tbl.map Prod.fst = ks) : tableHasRow tbl it = memB it ks := by
  induction tbl generalizing ks with
  | nil => rw [← h]; rfl
  | cons p rest ih =>
    obtain ⟨a, row⟩ := p
    subst h
    simp only [List.map_cons, tableHasRow, memB, List.mem_cons]
    by_cases hk : a = it
    · subst hk
      simp
    · simp [hk, show ¬ it = a from fun hc => hk hc.symm]
      simpa [memB] using ih (rest.map Prod.fst) rfl

theorem lem_tableHasRow_bumpCell (tbl : MatrixTable) (it sc j : String) :
    tableHasRow (bumpCell tbl it sc) j = tableHasRow tbl j := by
  induction tbl with
  | nil => rfl
  | cons p rest ih =>
    obtain ⟨a, row⟩ := p
    simp only [bumpCell]
    by_cases hp : a = it
    · rw [if_pos hp]
      simp [tableHasRow, ih]
    · rw [if_neg hp]
      simp [tableHasRow, ih]

theorem lem_rowOf_bumpCell_self (tbl : MatrixTable) (it sc : String) :
    rowOf (bumpCell tbl it sc) it = mapBump (rowOf tbl it) sc := by
  induction tbl with
  | nil => rfl
  | cons p rest ih =>
    obtain ⟨a, row⟩ := p
    simp only [bumpCell]
    by_cases hp : a = it
    · rw [if_pos hp]
      simp only [rowOf]
      rw [if_pos hp, if_pos hp]
    · rw [if_neg hp]
      simp only [rowOf]
      rw [if_neg hp, if_neg hp]
      exact ih

theorem lem_rowOf_bumpCell_ne (tbl : MatrixTable) (it sc j : String) (h : it ≠ j) :
    rowOf (bumpCell tbl it sc) j = rowOf tbl j := by
  induction tbl with
  | nil => rfl
  | cons p rest ih =>
    obtain ⟨a, row⟩ := p
    simp only [bumpCell]
    by_cases hp : a = it
    · have haj : ¬ a = j := by rw [hp]; exact h
      rw [if_pos hp]
      simp only [rowOf]
      rw [if_neg haj, if_neg haj]
      exact ih
    · rw [if_neg hp]
      simp only [rowOf]
      by_cases hj : a = j
      · rw [if_pos hj, if_pos hj]
      · rw [if_neg hj, if_neg hj]
        exact ih

theorem lem_keys_bumpCell (tbl : MatrixTable) (it sc : String) :
    (bumpCell tbl it sc).map Prod.fst = tbl.map Prod.fst := by
  induction tbl with
  | nil => rfl
  | cons p rest ih =>
    obtain ⟨a, row⟩ := p
    simp only [bumpCell]
    by_cases hp : a = it
    · rw [if_pos hp]
      simp [ih]
    · rw [if_neg hp]
      simp [ih]

theorem lem_rows_bumpCell (tbl : MatrixTable) (it sc : String) (scale : List String)
    (h : ∀ row ∈ tbl, row.2.map Prod.fst = scale) :
    ∀ row ∈ bumpCell tbl it sc, row.2.map Prod.fst = scale := by
  induction tbl with
  | nil =>
    intro row hr
    simp [bumpCell] at hr
  | cons p rest ih =>
    obtain ⟨a, prow⟩ := p
    intro row hr
    simp only [bumpCell] at hr
    rcases List.mem_cons.mp hr with h1 | h2
    · by_cases hp : a = it
      · rw [if_pos hp] at h1
        subst h1
        show (mapBump prow sc).map Prod.fst = scale
        rw [lem_keys_mapBump]
        exact h (a, prow) (List.mem_cons_self _ _)
      · rw [if_neg hp] at h1
        subst h1
        exact h (a, prow) (List.mem_cons_self _ _)
    · exact ih (fun r hrr => h r (List.mem_cons_of_mem _ hrr)) row h2

theorem lem_rowOf_scale (tbl : MatrixTable) (scale : List String)
    (h : ∀ row ∈ tbl, row.2.map Prod.fst = scale) (it : String)
    (hhas : tableHasRow tbl it = true) :
    (rowOf tbl it).map Prod.fst = scale := by
  induction tbl with
  | nil => simp [tableHasRow] at hhas
  | cons p rest ih =>
    obtain ⟨a, row⟩ := p
    simp only [rowOf]
    by_cases hp : a = it
    · rw [if_pos hp]
      exact h (a, row) (List.mem_cons_self _ _)
    · rw [if_neg hp]
      have hhas' : tableHasRow rest it = true := by
        simpa [tableHasRow, hp] using hhas
      exact ih (fun r hr => h r (List.mem_cons_of_mem _ hr)) hhas'

theorem lem_keys_matrixInit (items scale : List String) :
    (matrixInit items scale).map Prod.fst = items := by
  induction items with
  | nil => rfl
  | cons i rest ih => simp [matrixInit, ih]

theorem lem_rows_matrixInit (items scale : List String) :
    ∀ row ∈ matrixInit items scale, row.2.map Prod.fst = scale := by
  induction items with
  | nil =>
    intro row hr
    simp [matrixInit] at hr
  | cons i rest ih =>
    intro row hr
    simp only [matrixInit] at hr
    rcases List.mem_cons.mp hr with h1 | h2
    · subst h1
      exact lem_keys_zeroCounts scale
    · exact ih row h2

theorem lem_cellOf_matrixInit (items scale : List String) (it sc : String) :
    cellOf (matrixInit items scale) it sc = 0 := by
  induction items with
  | nil => rfl
  | cons i rest ih =>
    simp only [matrixInit, cellOf, rowOf]
    by_cases hp : i = it
    · rw [if_pos hp]
      exact lem_lookup_zeroCounts scale sc
    · rw [if_neg hp]
      exact ih

theorem lem_inv_applyEntry (q : Question) (tbl : MatrixTable) (e : String × String)
    (hkeys : tbl.map Prod.fst = q.items)
    (hrows : ∀ row ∈ tbl, row.2.map Prod.fst = q.scale) :
    ((applyMatrixEntry q.scale tbl e).map Prod.fst = q.items)
    ∧ (∀ row ∈ applyMatrixEntry q.scale tbl e, row.2.map Prod.fst = q.scale) := by
  simp only [applyMatrixEntry]
  split
  · exact ⟨by rw [lem_keys_bumpCell]; exact hkeys,
      lem_rows_bumpCell tbl e.1 e.2 q.scale hrows⟩
  · exact ⟨hkeys, hrows⟩

theorem lem_cell_applyEntry (q : Question) (tbl : MatrixTable)
    (hkeys : tbl.map Prod.fst = q.items)
    (hrows : ∀ row ∈ tbl, row.2.map Prod.fst = q.scale)
    (a b it sc : String)
    (hit : memB it q.items = true) (hsc : memB sc q.scale = true) :
    cellOf (applyMatrixEntry q.scale tbl (a, b)) it sc
      = cellOf tbl it sc + (if a = it ∧ b = sc then 1 else 0) := by
  simp only [applyMatrixEntry]
  by_cases hguard : (tableHasRow tbl a && memB b q.scale) = true
  · rw [if_pos hguard]
    rw [Bool.and_eq_true] at hguard
    by_cases ha : a = it
    · subst ha
      show lookupCount (rowOf (bumpCell tbl a b) a) sc = _
      rw [lem_rowOf_bumpCell_self]
      by_cases hb : b = sc
      · subst hb
        have hrowkeys : (rowOf tbl a).map Prod.fst = q.scale :=
          lem_rowOf_scale tbl q.scale hrows a hguard.1
        have hhas : hasKey (rowOf tbl a) b = true := by
          rw [lem_hasKey_eq_keys b _ _ hrowkeys]
          exact hsc
        rw [lem_lookup_mapBump_self _ _ hhas]
        simp [cellOf]
      · rw [lem_lookup_mapBump_ne _ _ _ hb]
        simp [cellOf, hb]
    · show lookupCount (rowOf (bumpCell tbl a b) it) sc = _
      rw [lem_rowOf_bumpCell_ne tbl a b it ha]
      simp [cellOf, ha]
  · rw [if_neg hguard]
    have hne : ¬ (a = it ∧ b = sc) := by
      rintro ⟨h1, h2⟩
      apply hguard
      rw [Bool.and_eq_true]
      constructor
      · rw [h1, lem_tableHasRow_eq_keys it tbl q.items hkeys]
        exact hit
      · rw [h2]
        exact hsc
    simp [hne]

theorem lem_inv_foldEntries (q : Question) :
    ∀ (entries : List (String × String)) (tbl : MatrixTable),
      tbl.map Prod.fst = q.items →
      (∀ row ∈ tbl, row.2.map Prod.fst = q.scale) →
      ((entries.foldl (applyMatrixEntry q.scale) tbl).map Prod.fst = q.items)
      ∧ (∀ row ∈ entries.foldl (applyMatrixEntry q.scale) tbl,
          row.2.map Prod.fst = q.scale) := by
  intro entries
  induction entries with
  | nil =>
    intro tbl hkeys hrows
    exact ⟨hkeys, hrows⟩
  | cons e rest ih =>
    intro tbl hkeys hrows
    rw [List.foldl_cons]
    obtain ⟨hk', hr'⟩ := lem_inv_applyEntry q tbl e hkeys hrows
    exact ih _ hk' hr'

theorem lem_cell_foldEntries (q : Question) (it sc : String)
    (hit : memB it q.items = true) (hsc : memB sc q.scale = true) :
    ∀ (entries : List (String × String)) (tbl : MatrixTable),
      tbl.map Prod.fst = q.items →
      (∀ row ∈ tbl, row.2.map Prod.fst = q.scale) →
      cellOf (entries.foldl (applyMatrixEntry q.scale) tbl) it sc
        = cellOf tbl it sc + entries.count (it, sc) := by
  intro entries
  induction entries with
  | nil =>
    intro tbl hkeys hrows
    simp
  | cons e rest ih =>
    intro tbl hkeys hrows
    obtain ⟨a, b⟩ := e
    rw [List.foldl_cons]
    obtain ⟨hk', hr'⟩ := lem_inv_applyEntry q tbl (a, b) hkeys hrows
    rw [ih _ hk' hr', lem_cell_applyEntry q tbl hkeys hrows a b it sc hit hsc]
    rw [List.count_cons]
    by_cases hab : a = it ∧ b = sc
    · simp [hab, Prod.mk.injEq]
      omega
    · simp [hab, Prod.mk.injEq]

theorem lem_inv_foldResponses (q : Question) (key : String) :
    ∀ (cur : List Response) (tbl : MatrixTable),
      tbl.map Prod.fst = q.items →
      (∀ row ∈ tbl, row.2.map Prod.fst = q.scale) →
      ((cur.foldl
          (fun tbl r => (entriesOf (r.get key)).foldl (applyMatrixEntry q.scale) tbl)
          tbl).map Prod.fst = q.items)
      ∧ (∀ row ∈ cur.foldl
          (fun tbl r => (entriesOf (r.get key)).foldl (applyMatrixEntry q.scale) tbl)
          tbl, row.2.map Prod.fst = q.scale) := by
  intro cur
  induction cur with
  | nil =>
    intro tbl hkeys hrows
    exact ⟨hkeys, hrows⟩
  | cons r rest ih =>
    intro tbl hkeys hrows
    rw [List.foldl_cons]
    obtain ⟨hk', hr'⟩ := lem_inv_foldEntries q (entriesOf (r.get key)) tbl hkeys hrows
    exact ih _ hk' hr'

theorem lem_cell_foldResponses (q : Question) (key : String) (it sc : String)
    (hit : memB it q.items = true) (hsc : memB sc q.scale = true) :
    ∀ (cur : List Response) (tbl : MatrixTable),
      tbl.map Prod.fst = q.items →
      (∀ row ∈ tbl, row.2.map Prod.fst = q.scale) →
      cellOf (cur.foldl
          (fun tbl r => (entriesOf (r.get key)).foldl (applyMatrixEntry q.scale) tbl)
          tbl) it sc
        = cellOf tbl it sc
          + (cur.map (fun r => (entriesOf (r.get key)).count (it, sc))).sum := by
  intro cur
  induction cur with
  | nil =>
    intro tbl hkeys hrows
    simp
  | cons r rest ih =>
    intro tbl hkeys hrows
    rw [List.foldl_cons]
    obtain ⟨hk', hr'⟩ := lem_inv_foldEntries q (entriesOf (r.get key)) tbl hkeys hrows
    rw [ih _ hk' hr',
      lem_cell_foldEntries q it sc hit hsc (entriesOf (r.get key)) tbl hkeys hrows]
    simp [List.map_cons, List.sum_cons]
    omega

/-- Claim C6: for a matrix question that declares at least one item and
at least one scale label, analyzeMatrix produces a table whose row labels
are exactly the declared items (in order), whose row cells are exactly
the declared scale labels (in order) — so every declared item/scale pair
is present, as 0 when never selected — and whose every declared cell
holds exactly the number of matching item-to-scale-label entries across
the subset's answers; entries whose item or scale label is not declared
are silently dropped (they can never touch a declared cell, and the table
has no other cells).  The reported total is the subset length. -/
theorem C6_matrix_table (q : Question) (key : String) (cur : List Response)
    (hi : q.items ≠ []) (hs : q.scale ≠ []) :
    analyzeMatrix q key cur = some (matrixTableOf q key cur, cur.length)
    ∧ (matrixTableOf q key cur).map Prod.fst = q.items
    ∧ (∀ row ∈ matrixTableOf q key cur, row.2.map Prod.fst = q.scale)
    ∧ (∀ it, memB it q.items = true → ∀ sc, memB sc q.scale = true →
        cellOf (matrixTableOf q key cur) it sc
          = (cur.map (fun r => (entriesOf (r.get key)).count (it, sc))).sum) := by
  obtain ⟨hk, hr⟩ := lem_inv_foldResponses q key cur (matrixInit q.items q.scale)
    (lem_keys_matrixInit q.items q.scale) (lem_rows_matrixInit q.items q.scale)
  refine ⟨?_, hk, hr, ?_⟩
  · rw [analyzeMatrix, if_neg]
    intro hc
    rcases (Bool.or_eq_true _ _).mp hc with h0 | h0
    · exact hi (List.length_eq_zero.mp (by simpa using h0))
    · exact hs (List.length_eq_zero.mp (by simpa using h0))
  · intro it hit sc hsc
    rw [matrixTableOf,
      lem_cell_foldResponses q key it sc hit hsc cur (matrixInit q.items q.scale)
        (lem_keys_matrixInit q.items q.scale) (lem_rows_matrixInit q.items q.scale),
      lem_cellOf_matrixInit]
    omega

theorem C6_witness :
    (houdiniQ.items ≠ [] ∧ houdiniQ.scale ≠ [])
    ∧ (analyzeMatrix houdiniQ "tools" []
        = some (matrixTableOf houdiniQ "tools" [], 0)
      ∧ (matrixTableOf houdiniQ "tools" []).map Prod.fst = houdiniQ.items
      ∧ (∀ row ∈ matrixTableOf houdiniQ "tools" [],
          row.2.map Prod.fst = houdiniQ.scale)
      ∧ (∀ it, memB it houdiniQ.items = true →
          ∀ sc, memB sc houdiniQ.scale = true →
          cellOf (matrixTableOf houdiniQ "tools" []) it sc
            = (([] : List Response).map
                (fun r => (entriesOf (r.get "tools")).count (it, sc))).sum))
    ∧ matrixTableOf houdiniQ "tools" []
        = [("Houdini", [("None", 0), ("Some", 0)])] :=
  ⟨⟨by decide, by decide⟩,
   C6_matrix_table houdiniQ "tools" [] (by decide) (by decide),
   by decide⟩

/-- Claim C9 counterexample: one response whose professional_role is the
whitespace-only string " " — a non-empty value absent from the schema
options, so the claim requires the "Other" sentinel to be offered and
accepted; but the code trims the value before testing, counts no
out-of-vocabulary response, and offers no "Other" option. -/
theorem C9_counterexample :
    respBlankRole.get "professional_role" = AnswerValue.str " "
    ∧ (" " : String) ≠ ""
    ∧ " " ∉ roleOptions
    ∧ "Other" ∉ populateAllOptions roleQ [respBlankRole] "professional_role"
    ∧ "Other" ∉ initialAcceptedSet roleQ [respBlankRole] "professional_role" := by
  decide

/-- Claim C9 (amended): provided the sentinel "Other" is not itself a
schema option, "Other" is offered among the selectable options (and hence
in the initial accepted set, which has the same membership) iff at least
one response has a value for the question that is truthy, non-blank
after trimming, and absent from the schema options. -/
theorem C9_other_sentinel (q : Question) (responses : List Response) (key : String)
    (h : "Other" ∉ q.options) :
    (("Other" ∈ populateAllOptions q responses key) ↔
      responses.any (fun r => isOtherDemoValue q.options (r.get key)) = true)
    ∧ (("Other" ∈ initialAcceptedSet q responses key) ↔
      ("Other" ∈ populateAllOptions q responses key)) := by
  constructor
  · have hiff : (0 < otherDemoCount q responses key) ↔
        responses.any (fun r => isOtherDemoValue q.options (r.get key)) = true := by
      rw [otherDemoCount, ← List.countP_eq_length_filter, List.countP_pos_iff,
        List.any_eq_true]
    dsimp only [populateAllOptions]
    by_cases hc : 0 < otherDemoCount q responses key
    · rw [if_pos hc]
      simp [List.mem_append, hiff.mp hc]
    · rw [if_neg hc]
      constructor
      · intro hmem; exact absurd hmem h
      · intro hany; exact absurd (hiff.mpr hany) hc
  · rw [initialAcceptedSet]
    exact List.mem_dedup

theorem C9_witness :
    "Other" ∉ roleQ.options
    ∧ ((("Other" ∈ populateAllOptions roleQ [respOther] "professional_role") ↔
        ([respOther] : List Response).any
          (fun r => isOtherDemoValue roleQ.options (r.get "professional_role")) = true)
      ∧ (("Other" ∈ initialAcceptedSet roleQ [respOther] "professional_role") ↔
        ("Other" ∈ populateAllOptions roleQ [respOther] "professional_role"))) :=
  ⟨by decide, C9_other_sentinel roleQ [respOther] "professional_role" (by decide)⟩

end Survey

